import Mathlib

/-!
# juce-tremolo: the combo-box item list

A shallow embedding of `include/ComboBoxItemList.h` and of the table
`lfoTypeList` of `include/LFOWaveform.h`, followed by the properties of the
id/value lookups and of `applyTo`.

Conventions of the embedding
* `std::vector<Entry>` is a `List (Entry T)`; an iterator into it is the
  0-based position it points at, `entries.end()` being `entries.length`.
* the C++ type `int` is 32 bits wide (two's complement).  A value of type `int`
  is an `Int`; every conversion to `int` and every `int` addition goes through
  `static_cast_int`, which reduces modulo `2^32`.  `size_t` is 64 bits wide.
  Ids are `int`s, so a statement that names the id of every entry is made for
  registries of at most `INT_MAX` entries, the sizes `static_cast<int>
  (entries.size())` represents; statements that need no such bound carry none.
* `T`'s `operator==` is decidable equality on `T`, and `T()` is `default`.
* `juce::ComboBox` belongs to the GUI toolkit, not to this repository; it is
  modelled as the ordered list of its options.
-/

namespace JuceTremolo

/-! ## Machine integers -/

/-- Largest value of the C++ type `int`. -/
def INT_MAX : Int := 2147483647

/-- Conversion of an integer to the 32-bit type `int` (`static_cast<int>`, and
the result of an `int` operation): the representative modulo `2^32` that lies in
`[-2^31, 2^31)`. -/
def static_cast_int (x : Int) : Int :=
  (x + 2147483648) % 4294967296 - 2147483648

/-- Conversion of an integer to the 64-bit unsigned type `size_t`
(`static_cast<size_t>`): the representative modulo `2^64`. -/
def static_cast_size_t (x : Int) : Nat :=
  (x % 18446744073709551616).toNat

/-! ## `ComboBoxItemList<T>` -/

/-- An entry in the list (`ComboBoxItemList<T>::Entry`): the value and its
display name. -/
structure Entry (T : Type) where
  value : T
  name : String
  deriving DecidableEq

/-- The class `ComboBoxItemList<T>`: its only data member is the vector
`entries`.  `ComboBoxItemList.mk` is the constructor taking the
`std::initializer_list<Entry>`, which copies the entries in order. -/
structure ComboBoxItemList (T : Type) where
  entries : List (Entry T)
  deriving DecidableEq

/-- The default constructor `ComboBoxItemList() = default`: the vector is
empty. -/
def ComboBoxItemList.new {T : Type} : ComboBoxItemList T :=
  { entries := [] }

/-- Modelled from the spec: one option of the selectable-list widget, a label
together with the integer id it was appended under (the item type of
`juce::ComboBox`, which is not part of this repository). -/
structure Item where
  name : String
  itemId : Int
  deriving DecidableEq

/-- Modelled from the spec: the selectable-list widget `juce::ComboBox`, which
is not part of this repository, reduced to the capability the item list needs:
an ordered list of options with "clear options" and "append option with label
and id". -/
structure ComboBox where
  items : List Item
  deriving DecidableEq

/-- Modelled from the spec: `comboBox.clear()` removes every option. -/
def ComboBox.clear (_comboBox : ComboBox) : ComboBox :=
  { items := [] }

/-- Modelled from the spec: `comboBox.addItem (name, id)` appends one option
after the existing ones. -/
def ComboBox.addItem (comboBox : ComboBox) (name : String) (id : Int) : ComboBox :=
  { items := comboBox.items ++ [{ name := name, itemId := id }] }

/-- `std::find_if (first, last, pred)` over a vector, as a position: the index
of the first element satisfying `pred`, or the length of the list (the `end()`
iterator) when there is none. -/
def find_if {α : Type} (pred : α → Bool) : List α → Nat
  | [] => 0
  | x :: xs => if pred x then 0 else find_if pred xs + 1

/-- One iteration of the loop of `applyTo`:
`comboBox.addItem (entry.name, id++)`.  The state is the widget and the local
variable `id`. -/
def applyTo.step {T : Type} (st : ComboBox × Int) (entry : Entry T) : ComboBox × Int :=
  (st.1.addItem entry.name st.2, static_cast_int (st.2 + 1))

/-- `ComboBoxItemList<T>::applyTo`: clear the widget, then run the range-for
loop over `entries` from `id = 1`; the result is the final widget. -/
def ComboBoxItemList.applyTo {T : Type} (l : ComboBoxItemList T) (comboBox : ComboBox) :
    ComboBox :=
  (l.entries.foldl applyTo.step (comboBox.clear, 1)).1

/-- `ComboBoxItemList<T>::valueToId`: the position found by `find_if`, plus one,
or `0` when `find_if` returns `entries.end()`. -/
def ComboBoxItemList.valueToId {T : Type} [DecidableEq T] (l : ComboBoxItemList T)
    (value : T) : Int :=
  let it := find_if (fun e => decide (e.value = value)) l.entries
  if it ≠ l.entries.length then
    static_cast_int (static_cast_int it + 1)
  else
    0

/-- `ComboBoxItemList<T>::idToValue`: under the guard, the value of the entry at
index `static_cast<size_t> (id - 1)`; otherwise `T()`.  The indexed access
carries the proof that the index is a position of the vector. -/
def ComboBoxItemList.idToValue {T : Type} [Inhabited T] (l : ComboBoxItemList T)
    (id : Int) : T :=
  if h : id > 0 ∧ id ≤ static_cast_int l.entries.length then
    (l.entries.get ⟨static_cast_size_t (id - 1), by
      unfold static_cast_int at h
      unfold static_cast_size_t
      omega⟩).value
  else
    default

/-! ## `LFOWaveform.h` -/

/-- The scoped enumeration `enum class LFOType`.  Its underlying type is `int`
and every value of the underlying type is a value of the enumeration, so a
value is its underlying integer; the five enumerators are the constants
below. -/
structure LFOType where
  raw : Int
  deriving DecidableEq

def LFOType.kSine : LFOType := ⟨0⟩
def LFOType.kSquare : LFOType := ⟨1⟩
def LFOType.kTriangle : LFOType := ⟨2⟩
def LFOType.kSaw : LFOType := ⟨3⟩
def LFOType.kReverseSaw : LFOType := ⟨4⟩

/-- The enumerators of `LFOType` in the order of their declaration; the
underlying value of an enumerator is its ordinal in this list. -/
def LFOType.enumerators : List LFOType :=
  [LFOType.kSine, LFOType.kSquare, LFOType.kTriangle, LFOType.kSaw, LFOType.kReverseSaw]

/-- Value-initialisation `LFOType()` yields the enumeration value zero. -/
instance : Inhabited LFOType := ⟨⟨0⟩⟩

/-- List of waveform types for the combo box. -/
def lfoTypeList : ComboBoxItemList LFOType :=
  ComboBoxItemList.mk [
    { value := LFOType.kSine,       name := "Sine" },
    { value := LFOType.kSquare,     name := "Square" },
    { value := LFOType.kTriangle,   name := "Triangle" },
    { value := LFOType.kSaw,        name := "Saw" },
    { value := LFOType.kReverseSaw, name := "Reverse Saw" }
  ]

/-- The options the loop of `applyTo` appends when it starts with the local
variable `id` at `id`: a closed form of the loop, used to state its effect. -/
def applyTo.items {T : Type} (id : Int) : List (Entry T) → List Item
  | [] => []
  | entry :: rest =>
    { name := entry.name, itemId := id } :: applyTo.items (static_cast_int (id + 1)) rest

/-- A registry with a repeated value: `kSaw` is the value of the first and of
the third entry. -/
def sampleRepeated : ComboBoxItemList LFOType :=
  ComboBoxItemList.mk [
    { value := LFOType.kSaw,  name := "Saw" },
    { value := LFOType.kSine, name := "Sine" },
    { value := LFOType.kSaw,  name := "Saw again" }
  ]

/-- A registry none of whose entries has the value `LFOType()`. -/
def sampleNoDefault : ComboBoxItemList LFOType :=
  ComboBoxItemList.mk [
    { value := LFOType.kSquare, name := "Square" },
    { value := LFOType.kSaw,    name := "Saw" }
  ]

/-! ## Auxiliary lemmas -/

theorem static_cast_int_of_range (x : Int) (h0 : -2147483648 ≤ x) (h1 : x ≤ INT_MAX) :
    static_cast_int x = x := by
  unfold INT_MAX at h1
  unfold static_cast_int
  omega

theorem static_cast_int_natCast_le (n : Nat) : static_cast_int n ≤ n := by
  unfold static_cast_int
  omega

theorem find_if_le_length {α : Type} (pred : α → Bool) (xs : List α) :
    find_if pred xs ≤ xs.length := by
  induction xs with
  | nil => simp [find_if]
  | cons x xs ih =>
    simp only [find_if, List.length_cons]
    split <;> omega

theorem find_if_eq_length_of_forall {α : Type} (pred : α → Bool) (xs : List α)
    (h : ∀ x ∈ xs, pred x = false) : find_if pred xs = xs.length := by
  induction xs with
  | nil => simp [find_if]
  | cons x xs ih =>
    have hx : pred x = false := h x (List.mem_cons_self x xs)
    have ih2 := ih (fun y hy => h y (List.mem_cons_of_mem x hy))
    simp [find_if, hx, ih2]

theorem find_if_lt_length_of_exists {α : Type} (pred : α → Bool) (xs : List α)
    (h : ∃ x ∈ xs, pred x = true) : find_if pred xs < xs.length := by
  induction xs with
  | nil => simp at h
  | cons x xs ih =>
    simp only [find_if, List.length_cons]
    by_cases hx : pred x = true
    · simp [hx]
    · simp only [hx]
      obtain ⟨y, hy, hpy⟩ := h
      rcases List.mem_cons.mp hy with rfl | hy2
      · exact absurd hpy hx
      · have := ih ⟨y, hy2, hpy⟩
        simp only [Bool.false_eq_true, if_false]
        omega

theorem find_if_getElem? {α : Type} (pred : α → Bool) (xs : List α)
    (h : find_if pred xs < xs.length) :
    ∃ x, xs[find_if pred xs]? = some x ∧ pred x = true := by
  induction xs with
  | nil => simp at h
  | cons x xs ih =>
    simp only [find_if, List.length_cons] at h ⊢
    by_cases hx : pred x = true
    · exact ⟨x, by simp [hx], hx⟩
    · simp only [hx, Bool.false_eq_true, if_false] at h ⊢
      obtain ⟨y, hy, hpy⟩ := ih (by omega)
      exact ⟨y, by simpa using hy, hpy⟩

theorem find_if_not_before {α : Type} (pred : α → Bool) (xs : List α) (j : Nat) (x : α)
    (hj : j < find_if pred xs) (hx : xs[j]? = some x) : pred x = false := by
  induction xs generalizing j with
  | nil => simp at hx
  | cons y ys ih =>
    simp only [find_if] at hj
    by_cases hy : pred y = true
    · simp [hy] at hj
    · simp only [hy, Bool.false_eq_true, if_false] at hj
      cases j with
      | zero =>
        simp at hx
        subst hx
        simpa using hy
      | succ k =>
        simp at hx
        exact ih k (by omega) hx

theorem find_if_eq_of_first {α : Type} (pred : α → Bool) (xs : List α) (p : Nat) (x : α)
    (hx : xs[p]? = some x) (hp : pred x = true)
    (hmin : ∀ j y, j < p → xs[j]? = some y → pred y = false) : find_if pred xs = p := by
  have hlt : p < xs.length := by
    rcases Nat.lt_or_ge p xs.length with h | h
    · exact h
    · rw [List.getElem?_eq_none h] at hx
      cases hx
  have hex : ∃ y ∈ xs, pred y = true := ⟨x, List.getElem?_mem hx, hp⟩
  have hf := find_if_lt_length_of_exists pred xs hex
  obtain ⟨z, hz, hpz⟩ := find_if_getElem? pred xs hf
  rcases Nat.lt_trichotomy (find_if pred xs) p with h | h | h
  · have := hmin _ z h hz
    rw [this] at hpz
    cases hpz
  · exact h
  · have := find_if_not_before pred xs p x h hx
    rw [this] at hp
    cases hp

theorem get_eq_of_getElem? {α : Type} (xs : List α) (i k : Nat) (hi : i < xs.length)
    (hik : i = k) (x : α) (hk : xs[k]? = some x) : xs.get ⟨i, hi⟩ = x := by
  subst hik
  rw [List.getElem?_eq_getElem hi] at hk
  simpa using hk

theorem getElem?_lt_length {α : Type} (xs : List α) (k : Nat) (x : α)
    (hk : xs[k]? = some x) : k < xs.length := by
  rcases Nat.lt_or_ge k xs.length with h | h
  · exact h
  · rw [List.getElem?_eq_none h] at hk
    cases hk

/-- With at most `INT_MAX` entries, `valueToId` is the position found plus one,
without wrap-around. -/
theorem valueToId_eq {T : Type} [DecidableEq T] (l : ComboBoxItemList T) (v : T)
    (hN : (l.entries.length : Int) ≤ INT_MAX) :
    l.valueToId v =
      if find_if (fun e => decide (e.value = v)) l.entries ≠ l.entries.length then
        (find_if (fun e => decide (e.value = v)) l.entries : Int) + 1
      else 0 := by
  have hle := find_if_le_length (fun e => decide (e.value = v)) l.entries
  unfold ComboBoxItemList.valueToId
  simp only []
  split
  · rename_i hne
    unfold INT_MAX at hN
    unfold static_cast_int
    omega
  · rfl

/-- With at most `INT_MAX` entries, `idToValue (k + 1)` is the value of the
entry at position `k`. -/
theorem idToValue_succ {T : Type} [Inhabited T] (l : ComboBoxItemList T)
    (hN : (l.entries.length : Int) ≤ INT_MAX) (k : Nat) (e : Entry T)
    (hk : l.entries[k]? = some e) : l.idToValue ((k : Int) + 1) = e.value := by
  have hlt := getElem?_lt_length _ _ _ hk
  have hcast : static_cast_int l.entries.length = l.entries.length :=
    static_cast_int_of_range _ (by omega) hN
  have hg : (k : Int) + 1 > 0 ∧ (k : Int) + 1 ≤ static_cast_int l.entries.length := by
    rw [hcast]
    omega
  have hidx : static_cast_size_t ((k : Int) + 1 - 1) = k := by
    unfold INT_MAX at hN
    unfold static_cast_size_t
    omega
  unfold ComboBoxItemList.idToValue
  rw [dif_pos hg]
  exact congrArg Entry.value (get_eq_of_getElem? _ _ k _ hidx e hk)

/-- Outside the guard `idToValue` returns `T()`. -/
theorem idToValue_of_not_guard {T : Type} [Inhabited T] (l : ComboBoxItemList T) (id : Int)
    (h : ¬ (id > 0 ∧ id ≤ static_cast_int l.entries.length)) : l.idToValue id = default := by
  unfold ComboBoxItemList.idToValue
  rw [dif_neg h]

/-- When no entry has the value looked up, `find_if` returns `end()` and
`valueToId` returns 0. -/
theorem valueToId_of_forall_ne {T : Type} [DecidableEq T]
    (l : ComboBoxItemList T) (v : T)
    (hv : ∀ e ∈ l.entries, e.value ≠ v) :
    l.valueToId v = 0 := by
  have hall : ∀ e ∈ l.entries, (fun e : Entry T => decide (e.value = v)) e = false := by
    intro e he
    simpa using hv e he
  have hf := find_if_eq_length_of_forall _ _ hall
  unfold ComboBoxItemList.valueToId
  simp only [hf, ne_eq, not_true_eq_false, if_false]

theorem foldl_step_items {T : Type} (es : List (Entry T)) (c : ComboBox) (i : Int) :
    (es.foldl applyTo.step (c, i)).1.items = c.items ++ applyTo.items i es := by
  induction es generalizing c i with
  | nil => simp [applyTo.items]
  | cons e es ih =>
    simp only [List.foldl_cons, applyTo.items]
    rw [applyTo.step, ih]
    simp [ComboBox.addItem]

theorem applyTo_eq {T : Type} (l : ComboBoxItemList T) (w : ComboBox) :
    l.applyTo w = { items := applyTo.items 1 l.entries } := by
  have h := foldl_step_items l.entries w.clear 1
  unfold ComboBoxItemList.applyTo
  cases hres : (l.entries.foldl applyTo.step (w.clear, 1)).1 with
  | mk its =>
    rw [hres] at h
    simp only [ComboBox.clear, List.nil_append] at h
    rw [h]

theorem applyTo_items_length {T : Type} (es : List (Entry T)) (i : Int) :
    (applyTo.items i es).length = es.length := by
  induction es generalizing i with
  | nil => rfl
  | cons e es ih => simp [applyTo.items, ih]

theorem applyTo_items_getElem? {T : Type} (es : List (Entry T)) (i : Int) (k : Nat)
    (h0 : -2147483648 ≤ i) (h1 : i + es.length ≤ INT_MAX + 1) :
    (applyTo.items i es)[k]? =
      (es[k]?).map (fun e => ({ name := e.name, itemId := i + k } : Item)) := by
  induction es generalizing i k with
  | nil => simp [applyTo.items]
  | cons e es ih =>
    cases k with
    | zero => simp [applyTo.items]
    | succ k =>
      simp only [applyTo.items, List.getElem?_cons_succ]
      cases es with
      | nil => simp [applyTo.items]
      | cons e2 es2 =>
        have hc : static_cast_int (i + 1) = i + 1 := by
          apply static_cast_int_of_range
          · omega
          · simp only [List.length_cons, Nat.cast_add, Nat.cast_one] at h1
            unfold INT_MAX at h1 ⊢
            omega
        rw [hc, ih (i + 1) k (by omega) (by
          simp only [List.length_cons, Nat.cast_add, Nat.cast_one] at h1 ⊢
          omega)]
        have : i + 1 + (k : Int) = i + ((k + 1 : Nat) : Int) := by
          push_cast
          ring
        rw [this]

/-! ## The lookups -/

/-- C1: for every registry whose entry count is representable in `int`
(duplicates allowed) and every value `v` that is the value of at least one
entry, `idToValue (valueToId (v)) == v`. -/
theorem idToValue_valueToId {T : Type} [DecidableEq T] [Inhabited T]
    (l : ComboBoxItemList T) (v : T)
    (hN : (l.entries.length : Int) ≤ INT_MAX)
    (hv : ∃ e ∈ l.entries, e.value = v) :
    l.idToValue (l.valueToId v) = v := by
  have hex : ∃ e ∈ l.entries, (fun e : Entry T => decide (e.value = v)) e = true := by
    obtain ⟨e, he, hev⟩ := hv
    exact ⟨e, he, by simpa using hev⟩
  have hlt := find_if_lt_length_of_exists _ _ hex
  obtain ⟨e, he, hpe⟩ := find_if_getElem? _ _ hlt
  rw [valueToId_eq l v hN, if_pos (Nat.ne_of_lt hlt), idToValue_succ l hN _ e he]
  simpa using hpe

/-- Witness of C1 on a registry in which the value looked up occurs twice. -/
theorem idToValue_valueToId_witness :
    ((sampleRepeated.entries.length : Int) ≤ INT_MAX) ∧
    (∃ e ∈ sampleRepeated.entries, e.value = LFOType.kSaw) ∧
    sampleRepeated.idToValue (sampleRepeated.valueToId LFOType.kSaw) = LFOType.kSaw :=
  ⟨by decide, ⟨⟨LFOType.kSaw, "Saw again"⟩, by decide, rfl⟩,
    idToValue_valueToId sampleRepeated LFOType.kSaw (by decide)
      ⟨⟨LFOType.kSaw, "Saw again"⟩, by decide, rfl⟩⟩

/-- C2: for every registry of `N` entries (`N` representable in `int`) whose
values are pairwise distinct, and every id with `1 <= id <= N`,
`valueToId (idToValue (id)) == id`. -/
theorem valueToId_idToValue {T : Type} [DecidableEq T] [Inhabited T]
    (l : ComboBoxItemList T) (id : Int)
    (hN : (l.entries.length : Int) ≤ INT_MAX)
    (hd : (l.entries.map Entry.value).Nodup)
    (h1 : 1 ≤ id) (h2 : id ≤ l.entries.length) :
    l.valueToId (l.idToValue id) = id := by
  obtain ⟨k, rfl⟩ : ∃ k : Nat, id = (k : Int) + 1 := ⟨(id - 1).toNat, by omega⟩
  have hk : k < l.entries.length := by omega
  have he : l.entries[k]? = some l.entries[k] := List.getElem?_eq_getElem hk
  rw [idToValue_succ l hN k _ he]
  have hfirst : find_if (fun e => decide (e.value = l.entries[k].value)) l.entries = k := by
    apply find_if_eq_of_first _ _ k _ he (by simp)
    intro j y hj hy
    have hne := (List.nodup_iff_getElem?_ne_getElem?.mp hd) j k hj (by simpa using hk)
    rw [List.getElem?_map, List.getElem?_map, hy, he] at hne
    simpa using hne
  rw [valueToId_eq l _ hN, hfirst, if_pos (Nat.ne_of_lt hk)]

/-- Witness of C2 on the shipped table, at id 4. -/
theorem valueToId_idToValue_witness :
    ((lfoTypeList.entries.length : Int) ≤ INT_MAX) ∧
    (lfoTypeList.entries.map Entry.value).Nodup ∧
    (1 : Int) ≤ 4 ∧ (4 : Int) ≤ lfoTypeList.entries.length ∧
    lfoTypeList.valueToId (lfoTypeList.idToValue 4) = 4 :=
  ⟨by decide, by decide, by decide, by decide,
    valueToId_idToValue lfoTypeList 4 (by decide) (by decide) (by decide) (by decide)⟩

/-- C3: for every registry (entry count representable in `int`) and every value
`v` that occurs in it, `valueToId (v)` is `p + 1`, where `p` is the 0-based
position of the first entry whose value is `v`: the entry at `p` has value `v`
and no entry before `p` has, whatever the later entries are. -/
theorem valueToId_first_position {T : Type} [DecidableEq T]
    (l : ComboBoxItemList T) (v : T)
    (hN : (l.entries.length : Int) ≤ INT_MAX)
    (hv : ∃ e ∈ l.entries, e.value = v) :
    ∃ p : Nat,
      (∃ e, l.entries[p]? = some e ∧ e.value = v) ∧
      (∀ j e, j < p → l.entries[j]? = some e → e.value ≠ v) ∧
      l.valueToId v = (p : Int) + 1 := by
  have hex : ∃ e ∈ l.entries, (fun e : Entry T => decide (e.value = v)) e = true := by
    obtain ⟨e, he, hev⟩ := hv
    exact ⟨e, he, by simpa using hev⟩
  have hlt := find_if_lt_length_of_exists _ _ hex
  obtain ⟨e, he, hpe⟩ := find_if_getElem? _ _ hlt
  refine ⟨find_if (fun e => decide (e.value = v)) l.entries, ⟨e, he, by simpa using hpe⟩, ?_, ?_⟩
  · intro j y hj hy
    have := find_if_not_before _ _ j y hj hy
    simpa using this
  · rw [valueToId_eq l v hN, if_pos (Nat.ne_of_lt hlt)]

/-- Witness of C3 on a registry in which the value looked up occurs at
positions 0 and 2. -/
theorem valueToId_first_position_witness :
    ((sampleRepeated.entries.length : Int) ≤ INT_MAX) ∧
    (∃ e ∈ sampleRepeated.entries, e.value = LFOType.kSaw) ∧
    ∃ p : Nat,
      (∃ e, sampleRepeated.entries[p]? = some e ∧ e.value = LFOType.kSaw) ∧
      (∀ j e, j < p → sampleRepeated.entries[j]? = some e → e.value ≠ LFOType.kSaw) ∧
      sampleRepeated.valueToId LFOType.kSaw = (p : Int) + 1 :=
  ⟨by decide, ⟨⟨LFOType.kSaw, "Saw again"⟩, by decide, rfl⟩,
    valueToId_first_position sampleRepeated LFOType.kSaw (by decide)
      ⟨⟨LFOType.kSaw, "Saw again"⟩, by decide, rfl⟩⟩

/-- C4: for every registry with `N` entries (`N` representable in `int`) and
every id with `1 <= id <= N`, position `id - 1` holds an entry and
`idToValue (id)` is the value stored in it. -/
theorem idToValue_in_range {T : Type} [Inhabited T]
    (l : ComboBoxItemList T) (id : Int)
    (hN : (l.entries.length : Int) ≤ INT_MAX)
    (h1 : 1 ≤ id) (h2 : id ≤ l.entries.length) :
    ∃ e, l.entries[(id - 1).toNat]? = some e ∧ l.idToValue id = e.value := by
  obtain ⟨k, rfl⟩ : ∃ k : Nat, id = (k : Int) + 1 := ⟨(id - 1).toNat, by omega⟩
  have hk : k < l.entries.length := by omega
  have hidx : ((k : Int) + 1 - 1).toNat = k := by omega
  have he : l.entries[k]? = some l.entries[k] := List.getElem?_eq_getElem hk
  rw [hidx]
  exact ⟨l.entries[k], he, idToValue_succ l hN k _ he⟩

/-- Witness of C4 on the shipped table, at id 5. -/
theorem idToValue_in_range_witness :
    ((lfoTypeList.entries.length : Int) ≤ INT_MAX) ∧
    (1 : Int) ≤ 5 ∧ (5 : Int) ≤ lfoTypeList.entries.length ∧
    ∃ e, lfoTypeList.entries[((5 : Int) - 1).toNat]? = some e ∧
      lfoTypeList.idToValue 5 = e.value :=
  ⟨by decide, by decide, by decide,
    idToValue_in_range lfoTypeList 5 (by decide) (by decide) (by decide)⟩

/-- C5: for every registry and every value `v` that is not the value of any
entry, `valueToId (v)` is the sentinel id 0. -/
theorem valueToId_absent {T : Type} [DecidableEq T]
    (l : ComboBoxItemList T) (v : T)
    (hv : ∀ e ∈ l.entries, e.value ≠ v) :
    l.valueToId v = 0 :=
  valueToId_of_forall_ne l v hv

/-- Witness of C5: `kTriangle` is not a value of `sampleRepeated`. -/
theorem valueToId_absent_witness :
    (∀ e ∈ sampleRepeated.entries, e.value ≠ LFOType.kTriangle) ∧
    sampleRepeated.valueToId LFOType.kTriangle = 0 :=
  ⟨by decide, valueToId_absent sampleRepeated LFOType.kTriangle (by decide)⟩

/-- C6: for every registry with `N` entries and every integer id with
`id <= 0` or `id > N`, negative ids included, `idToValue (id)` is `T()`. -/
theorem idToValue_out_of_range {T : Type} [Inhabited T]
    (l : ComboBoxItemList T) (id : Int)
    (h : id ≤ 0 ∨ id > l.entries.length) :
    l.idToValue id = default := by
  apply idToValue_of_not_guard
  have hle := static_cast_int_natCast_le l.entries.length
  omega

/-- Witness of C6 at a negative id. -/
theorem idToValue_out_of_range_witness :
    ((-3 : Int) ≤ 0 ∨ (-3 : Int) > sampleNoDefault.entries.length) ∧
    sampleNoDefault.idToValue (-3) = default :=
  ⟨Or.inl (by decide), idToValue_out_of_range sampleNoDefault (-3) (Or.inl (by decide))⟩

/-! ## Populating the widget -/

/-- C7: for every registry with `N` entries (`N` representable in `int`) and
every widget in any prior state, after `applyTo` the widget holds exactly `N`
options, the `k`-th option (`k = 1..N`) has the display name of the `k`-th entry
and id `k`, and the result is the one obtained from a widget without options:
none of the prior options remain. -/
theorem applyTo_options {T : Type} (l : ComboBoxItemList T) (w : ComboBox)
    (hN : (l.entries.length : Int) ≤ INT_MAX) :
    (l.applyTo w).items.length = l.entries.length ∧
    (∀ k : Nat, 1 ≤ k → k ≤ l.entries.length →
      ∃ e, l.entries[k - 1]? = some e ∧
        (l.applyTo w).items[k - 1]? = some { name := e.name, itemId := (k : Int) }) ∧
    l.applyTo w = l.applyTo { items := [] } := by
  refine ⟨?_, ?_, ?_⟩
  · rw [applyTo_eq]
    exact applyTo_items_length _ _
  · intro k hk1 hk2
    have hlt : k - 1 < l.entries.length := by omega
    refine ⟨l.entries[k - 1], List.getElem?_eq_getElem hlt, ?_⟩
    rw [applyTo_eq]
    simp only []
    rw [applyTo_items_getElem? l.entries 1 (k - 1) (by omega) (by omega),
      List.getElem?_eq_getElem hlt]
    have hid : (1 : Int) + ((k - 1 : Nat) : Int) = (k : Int) := by omega
    simp only [Option.map_some', hid]
  · rw [applyTo_eq, applyTo_eq]

/-- Witness of C7 on a widget that already holds an option. -/
theorem applyTo_options_witness :
    ((sampleRepeated.entries.length : Int) ≤ INT_MAX) ∧
    ((sampleRepeated.applyTo { items := [{ name := "Old", itemId := 9 }] }).items.length =
        sampleRepeated.entries.length ∧
      (∀ k : Nat, 1 ≤ k → k ≤ sampleRepeated.entries.length →
        ∃ e, sampleRepeated.entries[k - 1]? = some e ∧
          (sampleRepeated.applyTo { items := [{ name := "Old", itemId := 9 }] }).items[k - 1]? =
            some { name := e.name, itemId := (k : Int) }) ∧
      sampleRepeated.applyTo { items := [{ name := "Old", itemId := 9 }] } =
        sampleRepeated.applyTo { items := [] }) :=
  ⟨by decide,
    applyTo_options sampleRepeated { items := [{ name := "Old", itemId := 9 }] } (by decide)⟩

/-- C8: `applyTo` is idempotent on the widget, `applyTo (applyTo (w))` is
`applyTo (w)` for every registry and every widget `w`, and its result does not
depend on the widget it is applied to. -/
theorem applyTo_idempotent {T : Type} (l : ComboBoxItemList T) :
    (∀ w : ComboBox, l.applyTo (l.applyTo w) = l.applyTo w) ∧
    (∀ w w2 : ComboBox, l.applyTo w = l.applyTo w2) := by
  constructor
  · intro w
    rw [applyTo_eq l (l.applyTo w), applyTo_eq l w]
  · intro w w2
    rw [applyTo_eq l w, applyTo_eq l w2]

/-! ## The default value as the out-of-range result -/

/-- C9: for every registry with `N` entries (`N` representable in `int`), the
equivalence "`idToValue (id) == T()` if and only if `id` is outside `[1, N]`"
holds for all integer ids exactly when `T()` is not the value of any entry; and
if `T()` is the value of the entry at position `p`, then `idToValue (p + 1)`
equals `idToValue (0)`. -/
theorem idToValue_default_ambiguity {T : Type} [Inhabited T]
    (l : ComboBoxItemList T)
    (hN : (l.entries.length : Int) ≤ INT_MAX) :
    ((∀ id : Int, l.idToValue id = default ↔ (id < 1 ∨ (l.entries.length : Int) < id)) ↔
      (∀ e ∈ l.entries, e.value ≠ default)) ∧
    (∀ (p : Nat) (e : Entry T), l.entries[p]? = some e → e.value = default →
      l.idToValue ((p : Int) + 1) = l.idToValue 0) := by
  have hzero : l.idToValue 0 = default :=
    idToValue_of_not_guard l 0 (by omega)
  refine ⟨⟨?_, ?_⟩, ?_⟩
  · intro hiff e he hdef
    obtain ⟨k, hk⟩ := List.mem_iff_getElem?.mp he
    have hlt := getElem?_lt_length _ _ _ hk
    have hval := idToValue_succ l hN k e hk
    rw [hdef] at hval
    have := (hiff ((k : Int) + 1)).mp hval
    omega
  · intro hno id
    constructor
    · intro hdef
      by_contra hin
      have h1 : 1 ≤ id := by omega
      have h2 : id ≤ l.entries.length := by omega
      obtain ⟨k, rfl⟩ : ∃ k : Nat, id = (k : Int) + 1 := ⟨(id - 1).toNat, by omega⟩
      have hk : k < l.entries.length := by omega
      have he : l.entries[k]? = some l.entries[k] := List.getElem?_eq_getElem hk
      rw [idToValue_succ l hN k _ he] at hdef
      exact hno _ (List.getElem?_mem he) hdef
    · intro hout
      apply idToValue_of_not_guard
      have hle := static_cast_int_natCast_le l.entries.length
      omega
  · intro p e hp hdef
    rw [idToValue_succ l hN p e hp, hdef, hzero]

/-- Witness of C9 on the shipped table, whose first entry has the value
`LFOType()`. -/
theorem idToValue_default_ambiguity_witness :
    ((lfoTypeList.entries.length : Int) ≤ INT_MAX) ∧
    (((∀ id : Int, lfoTypeList.idToValue id = default ↔
          (id < 1 ∨ (lfoTypeList.entries.length : Int) < id)) ↔
        (∀ e ∈ lfoTypeList.entries, e.value ≠ default)) ∧
      (∀ (p : Nat) (e : Entry LFOType), lfoTypeList.entries[p]? = some e →
        e.value = default → lfoTypeList.idToValue ((p : Int) + 1) = lfoTypeList.idToValue 0)) :=
  ⟨by decide, idToValue_default_ambiguity lfoTypeList (by decide)⟩

/-! ## The shipped table -/

/-- C10: on `lfoTypeList`, `valueToId (kTriangle) == 3`,
`idToValue (3) == kTriangle`, `valueToId (v) == 0` for every value `v` of the
enumeration that is not one of the five enumerators, `idToValue (0)` and
`idToValue (6)` are `LFOType()`, and after `applyTo (w)` the widget has exactly
the options "Sine", "Square", "Triangle", "Saw", "Reverse Saw" with ids
1, 2, 3, 4, 5 in that order. -/
theorem lfoTypeList_scenario :
    lfoTypeList.valueToId LFOType.kTriangle = 3 ∧
    lfoTypeList.idToValue 3 = LFOType.kTriangle ∧
    (∀ v : LFOType,
      v ∉ [LFOType.kSine, LFOType.kSquare, LFOType.kTriangle, LFOType.kSaw,
        LFOType.kReverseSaw] → lfoTypeList.valueToId v = 0) ∧
    lfoTypeList.idToValue 0 = default ∧
    lfoTypeList.idToValue 6 = default ∧
    (∀ w : ComboBox, (lfoTypeList.applyTo w).items =
      [{ name := "Sine", itemId := 1 }, { name := "Square", itemId := 2 },
        { name := "Triangle", itemId := 3 }, { name := "Saw", itemId := 4 },
        { name := "Reverse Saw", itemId := 5 }]) := by
  refine ⟨by decide, by decide, ?_, by decide, by decide, ?_⟩
  · intro v hv
    apply valueToId_of_forall_ne
    intro e he hev
    apply hv
    subst hev
    simp only [lfoTypeList, List.mem_cons, List.mem_singleton, List.not_mem_nil, or_false] at he
    rcases he with rfl | rfl | rfl | rfl | rfl <;> simp
  · intro w
    rw [applyTo_eq]
    decide

/-- Witness of C10 for a value of the enumeration outside the five
enumerators. -/
theorem lfoTypeList_scenario_witness :
    (({ raw := 7 } : LFOType) ∉ [LFOType.kSine, LFOType.kSquare, LFOType.kTriangle,
      LFOType.kSaw, LFOType.kReverseSaw]) ∧
    lfoTypeList.valueToId { raw := 7 } = 0 :=
  ⟨by decide, lfoTypeList_scenario.2.2.1 { raw := 7 } (by decide)⟩

/-! ## The empty registry -/

/-- C11: construction is total and the empty registry is valid: the
default-constructed registry is the registry built from the empty list, and on
it `valueToId (v)` is 0 for every value `v`, `idToValue (id)` is `T()` for every
integer id, in particular for id 1, and `applyTo (w)` leaves any widget `w` with
zero options. -/
theorem empty_registry {T : Type} [DecidableEq T] [Inhabited T] :
    (ComboBoxItemList.new : ComboBoxItemList T) = ComboBoxItemList.mk [] ∧
    (∀ v : T, (ComboBoxItemList.mk [] : ComboBoxItemList T).valueToId v = 0) ∧
    (∀ id : Int, (ComboBoxItemList.mk [] : ComboBoxItemList T).idToValue id = default) ∧
    (ComboBoxItemList.mk [] : ComboBoxItemList T).idToValue 1 = default ∧
    (∀ w : ComboBox, ((ComboBoxItemList.mk [] : ComboBoxItemList T).applyTo w).items = []) := by
  have hid : ∀ id : Int, (ComboBoxItemList.mk [] : ComboBoxItemList T).idToValue id = default := by
    intro id
    apply idToValue_of_not_guard
    simp only [List.length_nil, static_cast_int]
    omega
  refine ⟨rfl, ?_, hid, hid 1, ?_⟩
  · intro v
    apply valueToId_of_forall_ne
    intro e he
    simp at he
  · intro w
    rw [applyTo_eq]
    rfl

/-! ## The shipped table and the enumeration -/

/-- C13: the shipped table `lfoTypeList` has pairwise distinct values and covers
the enumeration in declaration order: every enumerator of `LFOType` occurs in
it, `valueToId (t)` is the ordinal of `t` plus one for every enumerator `t`
(`kSine` 1, `kSquare` 2, `kTriangle` 3, `kSaw` 4, `kReverseSaw` 5), so
`valueToId` is never 0 on an enumerator, and both round trips hold on
`lfoTypeList`. -/
theorem lfoTypeList_covers_enum :
    (lfoTypeList.entries.map Entry.value).Nodup ∧
    lfoTypeList.entries.map Entry.value = LFOType.enumerators ∧
    (∀ t ∈ LFOType.enumerators, t ∈ lfoTypeList.entries.map Entry.value) ∧
    (∀ t ∈ LFOType.enumerators, lfoTypeList.valueToId t = t.raw + 1) ∧
    (∀ t ∈ LFOType.enumerators,
      (LFOType.enumerators.indexOf t : Int) = t.raw) ∧
    (lfoTypeList.valueToId LFOType.kSine = 1 ∧
      lfoTypeList.valueToId LFOType.kSquare = 2 ∧
      lfoTypeList.valueToId LFOType.kTriangle = 3 ∧
      lfoTypeList.valueToId LFOType.kSaw = 4 ∧
      lfoTypeList.valueToId LFOType.kReverseSaw = 5) ∧
    (∀ t ∈ LFOType.enumerators, lfoTypeList.valueToId t ≠ 0) ∧
    (∀ t ∈ LFOType.enumerators, lfoTypeList.idToValue (lfoTypeList.valueToId t) = t) ∧
    (∀ id : Int, 1 ≤ id → id ≤ 5 →
      lfoTypeList.valueToId (lfoTypeList.idToValue id) = id) := by
  refine ⟨by decide, by decide, by decide, by decide, by decide,
    ⟨by decide, by decide, by decide, by decide, by decide⟩, by decide, by decide, ?_⟩
  intro id h1 h5
  obtain rfl | rfl | rfl | rfl | rfl : id = 1 ∨ id = 2 ∨ id = 3 ∨ id = 4 ∨ id = 5 := by omega
  all_goals decide

/-- Witness of C13: the id round trip at id 2 on the shipped table. -/
theorem lfoTypeList_covers_enum_witness :
    (1 : Int) ≤ 2 ∧ (2 : Int) ≤ 5 ∧
    lfoTypeList.valueToId (lfoTypeList.idToValue 2) = 2 :=
  ⟨by decide, by decide,
    lfoTypeList_covers_enum.2.2.2.2.2.2.2.2 2 (by decide) (by decide)⟩

/-- C16: on the shipped table the out-of-range result collides with an entry:
`LFOType()` is `kSine`, the value of the entry with id 1, so for every integer
id outside `[1, 5]`, `idToValue (id)` equals `idToValue (1)`, which is `kSine`,
and `valueToId (idToValue (id))` is 1. -/
theorem lfoTypeList_fallback_is_sine :
    (default : LFOType) = LFOType.kSine ∧
    lfoTypeList.idToValue 1 = LFOType.kSine ∧
    (∀ id : Int, id < 1 ∨ 5 < id →
      lfoTypeList.idToValue id = lfoTypeList.idToValue 1 ∧
      lfoTypeList.idToValue id = LFOType.kSine ∧
      lfoTypeList.valueToId (lfoTypeList.idToValue id) = 1) := by
  refine ⟨rfl, by decide, ?_⟩
  intro id hid
  have hdef : lfoTypeList.idToValue id = default := by
    apply idToValue_of_not_guard
    have hle := static_cast_int_natCast_le lfoTypeList.entries.length
    have hlen : lfoTypeList.entries.length = 5 := rfl
    rw [hlen] at hle
    rw [hlen]
    omega
  rw [hdef]
  exact ⟨by decide, rfl, by decide⟩

/-- Witness of C16 at the ids 6 and -1. -/
theorem lfoTypeList_fallback_is_sine_witness :
    (((6 : Int) < 1 ∨ (5 : Int) < 6) ∧
      lfoTypeList.valueToId (lfoTypeList.idToValue 6) = 1) ∧
    (((-1 : Int) < 1 ∨ (5 : Int) < -1) ∧
      lfoTypeList.idToValue (-1) = LFOType.kSine) :=
  ⟨⟨Or.inr (by decide), (lfoTypeList_fallback_is_sine.2.2 6 (Or.inr (by decide))).2.2⟩,
    ⟨Or.inl (by decide), (lfoTypeList_fallback_is_sine.2.2 (-1) (Or.inl (by decide))).2.1⟩⟩

/-! ## Range of `valueToId` and agreement of the ids -/

theorem find_if_eq_length_iff {α : Type} (pred : α → Bool) (xs : List α) :
    find_if pred xs = xs.length ↔ ∀ x ∈ xs, pred x = false := by
  constructor
  · intro h x hx
    by_contra hp
    have hlt := find_if_lt_length_of_exists pred xs ⟨x, hx, by simpa using hp⟩
    omega
  · exact find_if_eq_length_of_forall pred xs

/-- With at most `INT_MAX` entries, the options of the widget after `applyTo`
are the pairs of the name of the entry at position `k` and the id `k + 1`. -/
theorem mem_applyTo_items {T : Type} (l : ComboBoxItemList T) (w : ComboBox)
    (hN : (l.entries.length : Int) ≤ INT_MAX) (it : Item) :
    it ∈ (l.applyTo w).items ↔
      ∃ (k : Nat) (e : Entry T), l.entries[k]? = some e ∧
        it = { name := e.name, itemId := (k : Int) + 1 } := by
  rw [applyTo_eq]
  simp only []
  rw [List.mem_iff_getElem?]
  constructor
  · rintro ⟨k, hk⟩
    rw [applyTo_items_getElem? l.entries 1 k (by omega) (by omega)] at hk
    cases he : l.entries[k]? with
    | none =>
      rw [he] at hk
      cases hk
    | some e =>
      rw [he] at hk
      simp only [Option.map_some', Option.some.injEq] at hk
      refine ⟨k, e, he, ?_⟩
      rw [← hk, Int.add_comm]
  · rintro ⟨k, e, he, rfl⟩
    refine ⟨k, ?_⟩
    rw [applyTo_items_getElem? l.entries 1 k (by omega) (by omega), he]
    simp only [Option.map_some', Int.add_comm]

/-- C14: for every registry with `N` entries (`N` representable in `int`) and
every value `v`, `0 <= valueToId (v) <= N`, and `valueToId (v)` is 0 if and only
if no entry has value `v`; so a non-zero result is an id in `[1, N]` and denotes
a value that is present. -/
theorem valueToId_range {T : Type} [DecidableEq T]
    (l : ComboBoxItemList T) (v : T)
    (hN : (l.entries.length : Int) ≤ INT_MAX) :
    0 ≤ l.valueToId v ∧
    l.valueToId v ≤ l.entries.length ∧
    (l.valueToId v = 0 ↔ ∀ e ∈ l.entries, e.value ≠ v) ∧
    (l.valueToId v ≠ 0 →
      1 ≤ l.valueToId v ∧ l.valueToId v ≤ l.entries.length ∧
        ∃ e ∈ l.entries, e.value = v) := by
  have hle := find_if_le_length (fun e : Entry T => decide (e.value = v)) l.entries
  have hiff := find_if_eq_length_iff (fun e : Entry T => decide (e.value = v)) l.entries
  have hzero : l.valueToId v = 0 ↔ ∀ e ∈ l.entries, e.value ≠ v := by
    rw [valueToId_eq l v hN]
    constructor
    · intro h e he
      have hf : find_if (fun e : Entry T => decide (e.value = v)) l.entries
          = l.entries.length := by
        by_contra hne
        rw [if_pos hne] at h
        omega
      simpa using (hiff.mp hf) e he
    · intro h
      have hf := hiff.mpr (fun e he => by simpa using h e he)
      rw [if_neg (by simpa using hf)]
  have h0 : 0 ≤ l.valueToId v := by
    rw [valueToId_eq l v hN]
    split <;> omega
  have hN2 : l.valueToId v ≤ l.entries.length := by
    rw [valueToId_eq l v hN]
    split <;> omega
  refine ⟨h0, hN2, hzero, ?_⟩
  intro hne
  refine ⟨by omega, hN2, ?_⟩
  by_contra hno
  apply hne
  apply hzero.mpr
  intro e he hev
  exact hno ⟨e, he, hev⟩

/-- Witness of C14 on a registry with a repeated value. -/
theorem valueToId_range_witness :
    ((sampleRepeated.entries.length : Int) ≤ INT_MAX) ∧
    (0 ≤ sampleRepeated.valueToId LFOType.kSine ∧
      sampleRepeated.valueToId LFOType.kSine ≤ sampleRepeated.entries.length ∧
      (sampleRepeated.valueToId LFOType.kSine = 0 ↔
        ∀ e ∈ sampleRepeated.entries, e.value ≠ LFOType.kSine) ∧
      (sampleRepeated.valueToId LFOType.kSine ≠ 0 →
        1 ≤ sampleRepeated.valueToId LFOType.kSine ∧
          sampleRepeated.valueToId LFOType.kSine ≤ sampleRepeated.entries.length ∧
          ∃ e ∈ sampleRepeated.entries, e.value = LFOType.kSine)) :=
  ⟨by decide, valueToId_range sampleRepeated LFOType.kSine (by decide)⟩

/-- C12: widget ids and lookup ids agree.  For every registry with `N` entries
(`N` representable in `int`), after `applyTo (w)`, for every id in `[1, N]` the
widget has an option carrying that id, and every option carrying it has as
label the name of the entry at position `id - 1`, the entry whose value
`idToValue (id)` returns; and when the values are pairwise distinct, for every
entry `(v, name)` the widget has an option carrying the id `valueToId (v)`, and
every option carrying it has the label `name`. -/
theorem applyTo_ids_agree {T : Type} [DecidableEq T] [Inhabited T]
    (l : ComboBoxItemList T) (w : ComboBox)
    (hN : (l.entries.length : Int) ≤ INT_MAX) :
    (∀ id : Int, 1 ≤ id → id ≤ l.entries.length →
      ∃ e, l.entries[(id - 1).toNat]? = some e ∧ l.idToValue id = e.value ∧
        (∃ it ∈ (l.applyTo w).items, it.itemId = id) ∧
        (∀ it ∈ (l.applyTo w).items, it.itemId = id → it.name = e.name)) ∧
    ((l.entries.map Entry.value).Nodup →
      ∀ e ∈ l.entries,
        (∃ it ∈ (l.applyTo w).items, it.itemId = l.valueToId e.value) ∧
        (∀ it ∈ (l.applyTo w).items, it.itemId = l.valueToId e.value → it.name = e.name)) := by
  have hpos : ∀ (k : Nat) (e : Entry T), l.entries[k]? = some e →
      (∃ it ∈ (l.applyTo w).items, it.itemId = (k : Int) + 1) ∧
      (∀ it ∈ (l.applyTo w).items, it.itemId = (k : Int) + 1 → it.name = e.name) := by
    intro k e he
    constructor
    · exact ⟨{ name := e.name, itemId := (k : Int) + 1 },
        (mem_applyTo_items l w hN _).mpr ⟨k, e, he, rfl⟩, rfl⟩
    · intro it hit hid
      obtain ⟨k2, e2, he2, rfl⟩ := (mem_applyTo_items l w hN it).mp hit
      simp only at hid
      have hk : k2 = k := by omega
      subst hk
      rw [he] at he2
      cases he2
      rfl
  constructor
  · intro id h1 h2
    obtain ⟨k, rfl⟩ : ∃ k : Nat, id = (k : Int) + 1 := ⟨(id - 1).toNat, by omega⟩
    have hk : k < l.entries.length := by omega
    have hidx : ((k : Int) + 1 - 1).toNat = k := by omega
    have he : l.entries[k]? = some l.entries[k] := List.getElem?_eq_getElem hk
    rw [hidx]
    exact ⟨l.entries[k], he, idToValue_succ l hN k _ he, hpos k _ he⟩
  · intro hd e hmem
    obtain ⟨k, he⟩ := List.mem_iff_getElem?.mp hmem
    have hk := getElem?_lt_length _ _ _ he
    have hfirst : find_if (fun x : Entry T => decide (x.value = e.value)) l.entries = k := by
      apply find_if_eq_of_first _ _ k _ he (by simp)
      intro j y hj hy
      have hne := (List.nodup_iff_getElem?_ne_getElem?.mp hd) j k hj (by simpa using hk)
      rw [List.getElem?_map, List.getElem?_map, hy, he] at hne
      simpa using hne
    rw [valueToId_eq l _ hN, hfirst, if_pos (Nat.ne_of_lt hk)]
    exact hpos k e he

/-- Witness of C12 on the shipped table and a widget that already holds an
option. -/
theorem applyTo_ids_agree_witness :
    ((lfoTypeList.entries.length : Int) ≤ INT_MAX) ∧
    (lfoTypeList.entries.map Entry.value).Nodup ∧
    ({ value := LFOType.kReverseSaw, name := "Reverse Saw" } : Entry LFOType) ∈
      lfoTypeList.entries ∧
    (∃ it ∈ (lfoTypeList.applyTo { items := [{ name := "Old", itemId := 5 }] }).items,
      it.itemId = lfoTypeList.valueToId LFOType.kReverseSaw) ∧
    (∀ it ∈ (lfoTypeList.applyTo { items := [{ name := "Old", itemId := 5 }] }).items,
      it.itemId = lfoTypeList.valueToId LFOType.kReverseSaw → it.name = "Reverse Saw") :=
  ⟨by decide, by decide, by decide,
    (applyTo_ids_agree lfoTypeList { items := [{ name := "Old", itemId := 5 }] }
      (by decide)).2 (by decide) { value := LFOType.kReverseSaw, name := "Reverse Saw" }
      (by decide)⟩

/-! ## The id round trip without distinctness -/

/-- C15: without the distinctness assumption the id round trip is first-match.
For every registry with `N` entries (`N` representable in `int`, duplicates
allowed) and every id in `[1, N]`, `valueToId (idToValue (id))` is the least `j`
in `[1, N]` with `idToValue (j) == idToValue (id)`; hence it lies between 1 and
`id`, and it equals `id` if and only if no entry before position `id - 1` has
the same value. -/
theorem valueToId_idToValue_first_match {T : Type} [DecidableEq T] [Inhabited T]
    (l : ComboBoxItemList T) (id : Int)
    (hN : (l.entries.length : Int) ≤ INT_MAX)
    (h1 : 1 ≤ id) (h2 : id ≤ l.entries.length) :
    1 ≤ l.valueToId (l.idToValue id) ∧
    l.valueToId (l.idToValue id) ≤ l.entries.length ∧
    l.idToValue (l.valueToId (l.idToValue id)) = l.idToValue id ∧
    (∀ j : Int, 1 ≤ j → j ≤ l.entries.length → l.idToValue j = l.idToValue id →
      l.valueToId (l.idToValue id) ≤ j) ∧
    l.valueToId (l.idToValue id) ≤ id ∧
    (l.valueToId (l.idToValue id) = id ↔
      ∀ (j : Nat) (e : Entry T), j < (id - 1).toNat → l.entries[j]? = some e →
        e.value ≠ l.idToValue id) := by
  obtain ⟨k, rfl⟩ : ∃ k : Nat, id = (k : Int) + 1 := ⟨(id - 1).toNat, by omega⟩
  have hk : k < l.entries.length := by omega
  have hidx : ((k : Int) + 1 - 1).toNat = k := by omega
  have he : l.entries[k]? = some l.entries[k] := List.getElem?_eq_getElem hk
  rw [hidx, idToValue_succ l hN k _ he]
  generalize hv : l.entries[k].value = v
  have hpk : (fun x : Entry T => decide (x.value = v)) l.entries[k] = true := by
    simpa using hv
  have hlt := find_if_lt_length_of_exists (fun x : Entry T => decide (x.value = v)) l.entries
    ⟨l.entries[k], List.getElem?_mem he, hpk⟩
  obtain ⟨e2, he2, hpe2⟩ := find_if_getElem? _ _ hlt
  have hle : find_if (fun x : Entry T => decide (x.value = v)) l.entries ≤ k := by
    by_contra hgt
    have := find_if_not_before (fun x : Entry T => decide (x.value = v)) l.entries k _
      (by omega) he
    rw [this] at hpk
    cases hpk
  rw [valueToId_eq l v hN, if_pos (Nat.ne_of_lt hlt)]
  refine ⟨by omega, by omega, ?_, ?_, by omega, ?_⟩
  · rw [idToValue_succ l hN _ e2 he2]
    simpa using hpe2
  · intro j hj1 hj2 hjv
    obtain ⟨m, rfl⟩ : ∃ m : Nat, j = (m : Int) + 1 := ⟨(j - 1).toNat, by omega⟩
    have hm : m < l.entries.length := by omega
    have hem : l.entries[m]? = some l.entries[m] := List.getElem?_eq_getElem hm
    rw [idToValue_succ l hN m _ hem] at hjv
    have hnot : ¬ m < find_if (fun x : Entry T => decide (x.value = v)) l.entries := by
      intro hmlt
      have := find_if_not_before _ _ m _ hmlt hem
      simp only [decide_eq_false_iff_not] at this
      exact this hjv
    omega
  · constructor
    · intro heq j e hj hje
      have hfk : find_if (fun x : Entry T => decide (x.value = v)) l.entries = k := by
        omega
      have := find_if_not_before (fun x : Entry T => decide (x.value = v)) l.entries j e
        (by omega) hje
      simpa using this
    · intro hall
      have hfk : find_if (fun x : Entry T => decide (x.value = v)) l.entries = k := by
        apply find_if_eq_of_first _ _ k _ he hpk
        intro j y hj hy
        simpa using hall j y hj hy
      rw [hfk]

/-- Witness of C15 on a registry whose first and third entries have the same
value: the round trip from id 3 gives id 1. -/
theorem valueToId_idToValue_first_match_witness :
    ((sampleRepeated.entries.length : Int) ≤ INT_MAX) ∧
    (1 : Int) ≤ 3 ∧ (3 : Int) ≤ sampleRepeated.entries.length ∧
    sampleRepeated.valueToId (sampleRepeated.idToValue 3) = 1 ∧
    (1 ≤ sampleRepeated.valueToId (sampleRepeated.idToValue 3) ∧
      sampleRepeated.valueToId (sampleRepeated.idToValue 3) ≤ sampleRepeated.entries.length ∧
      sampleRepeated.idToValue (sampleRepeated.valueToId (sampleRepeated.idToValue 3)) =
        sampleRepeated.idToValue 3 ∧
      (∀ j : Int, 1 ≤ j → j ≤ sampleRepeated.entries.length →
        sampleRepeated.idToValue j = sampleRepeated.idToValue 3 →
          sampleRepeated.valueToId (sampleRepeated.idToValue 3) ≤ j) ∧
      sampleRepeated.valueToId (sampleRepeated.idToValue 3) ≤ 3 ∧
      (sampleRepeated.valueToId (sampleRepeated.idToValue 3) = 3 ↔
        ∀ (j : Nat) (e : Entry LFOType), j < ((3 : Int) - 1).toNat →
          sampleRepeated.entries[j]? = some e → e.value ≠ sampleRepeated.idToValue 3)) :=
  ⟨by decide, by decide, by decide, by decide,
    valueToId_idToValue_first_match sampleRepeated 3 (by decide) (by decide) (by decide)⟩

end JuceTremolo
